import Mathlib

/-!
# Verification of the gradient-descent training loop

This file formalises the `train` function defined in
`notebooks/3_Custom_Model_and_Layer.ipynb` (cell 11):

```python
def train(x, y, model, learning_rate=.01, max_epochs=10000, min_tol=1e-3, verbose=1000):
    best_loss = None
    for it in range(max_epochs):
        with tf.GradientTape() as tape:
            y_hat = model(x)
            loss = tf.reduce_mean(tf.square(y - y_hat))
        if not best_loss or best_loss > loss.numpy():
            best_loss = loss.numpy()
        if best_loss < min_tol:
            if verbose: print('terminated as loss less than minimal tolerance')
            break
        if verbose and not (it % verbose):
            print('mse loss at iteration {} is {:5.4f}'.format(it, loss))
        gradients = tape.gradient(loss, model.variables)
        for variables, grads in zip(model.variables, gradients):
            variables.assign_add(-learning_rate * grads)
```

Numbers are embedded as rationals.  The model's forward pass (`model(x)` as a
function of the current parameters) and the gradient provider
(`tape.gradient`, an external framework facility) are abstract function
parameters; the parameter list is a flat ordered list of scalars.  The loop is
embedded as structural recursion on the remaining epoch budget, threading the
mutable state (`best_loss`, the parameter list, the console output) explicitly.
The function body contains no `return` statement, which is recorded separately
by `trainReturn`.
-/

namespace TrainLoop

/-- One line of console output of the training loop: either the progress line
`'mse loss at iteration {} is {:5.4f}'.format(it, loss)` (carrying the
iteration index and the current-iteration loss value), or the termination
notice `'terminated as loss less than minimal tolerance'`. -/
inductive LogEntry where
  | progress (it : ℕ) (loss : ℚ)
  | termination
  deriving DecidableEq

/-- `loss = tf.reduce_mean(tf.square(y - y_hat))`: the mean of the squared
elementwise differences between targets and predictions. -/
def mse (y yhat : List ℚ) : ℚ :=
  (List.zipWith (fun t p => (t - p) ^ 2) y yhat).sum / (y.length : ℚ)

/-- The `best_loss` update
`if not best_loss or best_loss > loss.numpy(): best_loss = loss.numpy()`.
Python truthiness makes `not best_loss` true both when `best_loss` is `None`
and when it is `0.0`, so a stored best of exactly `0` is overwritten
unconditionally. -/
def updateBest : Option ℚ → ℚ → ℚ
  | none, l => l
  | some b, l => if b = 0 ∨ b > l then l else b

/-- The in-place update loop
`for variables, grads in zip(model.variables, gradients):
variables.assign_add(-learning_rate * grads)`: positionally paired parameters
and gradients are updated one after the other; `zip` stops at the shorter
list, leaving any unpaired trailing parameters untouched. -/
def updateParamsLoop (lr : ℚ) : List ℚ → List ℚ → List ℚ
  | [], _ => []
  | ps, [] => ps
  | p :: ps, g :: gs => (p + (-lr * g)) :: updateParamsLoop lr ps gs

/-- The observable state of one training run: final parameter list (the
in-place mutated `model.variables`), the final `best_loss`, the number of loop
iterations entered, the console output in order, and whether the loop exited
through the early-termination `break`. -/
structure RunState where
  params : List ℚ
  best_loss : Option ℚ
  iters : ℕ
  logs : List LogEntry
  early : Bool
  deriving DecidableEq

/-- The body of `train`'s `for it in range(max_epochs)` loop, as structural
recursion on the remaining epoch budget.  Each round: compute the loss at the
current parameters, update `best_loss`, test `best_loss < min_tol` (emitting
the termination notice only when `verbose` is truthy, and stopping before any
logging, gradient computation or update of that iteration); otherwise emit the
progress line when `verbose` is truthy and `it % verbose == 0`, compute the
gradients at the current (pre-update) parameters, and update every parameter
in place. -/
def trainGo (lr min_tol : ℚ) (verbose : ℕ) (lossFn : List ℚ → ℚ)
    (gradFn : List ℚ → List ℚ) :
    ℕ → ℕ → Option ℚ → List ℚ → List LogEntry → RunState
  | 0, it, best, params, logs => ⟨params, best, it, logs, false⟩
  | rem + 1, it, best, params, logs =>
    let loss := lossFn params
    let best' := updateBest best loss
    if best' < min_tol then
      ⟨params, some best', it + 1,
        logs ++ if verbose ≠ 0 then [LogEntry.termination] else [], true⟩
    else
      trainGo lr min_tol verbose lossFn gradFn rem (it + 1) (some best')
        (updateParamsLoop lr params (gradFn params))
        (logs ++ if verbose ≠ 0 ∧ it % verbose = 0
                 then [LogEntry.progress it loss] else [])

/-- The keyword arguments of `train`: learning rate, epoch budget, convergence
tolerance and logging period (`verbose = 0` disables all output). -/
structure Config where
  learning_rate : ℚ
  max_epochs : ℕ
  min_tol : ℚ
  verbose : ℕ

/-- The run of `train(x, y, model, ...)`: `forward` is the model's forward
pass on the fixed inputs as a function of the parameter list, `targets` is
`y`, `gradFn` is `tape.gradient` as a function of the parameters, and
`params0` the initial `model.variables`.  The loss of an iteration is the
mean-squared error between the targets and the forward pass at the current
parameters.  `best_loss` starts as `None` and the loop runs for `it` from `0`
with budget `max_epochs`. -/
def train (forward : List ℚ → List ℚ) (targets : List ℚ)
    (gradFn : List ℚ → List ℚ) (params0 : List ℚ) (cfg : Config) : RunState :=
  trainGo cfg.learning_rate cfg.min_tol cfg.verbose
    (fun p => mse targets (forward p)) gradFn cfg.max_epochs 0 none params0 []

/-- The value the Python function `train` hands back to its caller: the body
contains no `return` statement, so after the loop finishes (by `break` or by
exhausting `range(max_epochs)`) the function falls off the end and returns
`None`. -/
def trainReturn (forward : List ℚ → List ℚ) (targets : List ℚ)
    (gradFn : List ℚ → List ℚ) (params0 : List ℚ) (cfg : Config) :
    Option RunState :=
  none

/-- The parameter list after `n` completed (non-terminating) iterations of
the loop: each completed iteration replaces the parameters by the in-place
gradient-descent update taken at the pre-update parameters. -/
def iterParams (lr : ℚ) (gradFn : List ℚ → List ℚ) : List ℚ → ℕ → List ℚ
  | params, 0 => params
  | params, n + 1 =>
    iterParams lr gradFn (updateParamsLoop lr params (gradFn params)) n

/-- Whether a log entry is a progress line (as opposed to the termination
notice). -/
def isProgress : LogEntry → Bool
  | .progress _ _ => true
  | .termination => false

/-- Variant loop stated by the refinement claim: identical to `trainGo`
except that the early-termination test reads the current-iteration loss
instead of the running best. -/
def trainGoVariant (lr min_tol : ℚ) (verbose : ℕ) (lossFn : List ℚ → ℚ)
    (gradFn : List ℚ → List ℚ) :
    ℕ → ℕ → Option ℚ → List ℚ → List LogEntry → RunState
  | 0, it, best, params, logs => ⟨params, best, it, logs, false⟩
  | rem + 1, it, best, params, logs =>
    let loss := lossFn params
    let best' := updateBest best loss
    if loss < min_tol then
      ⟨params, some best', it + 1,
        logs ++ if verbose ≠ 0 then [LogEntry.termination] else [], true⟩
    else
      trainGoVariant lr min_tol verbose lossFn gradFn rem (it + 1) (some best')
        (updateParamsLoop lr params (gradFn params))
        (logs ++ if verbose ≠ 0 ∧ it % verbose = 0
                 then [LogEntry.progress it loss] else [])

/-- `train` with the current-loss termination test of `trainGoVariant`. -/
def trainVariant (forward : List ℚ → List ℚ) (targets : List ℚ)
    (gradFn : List ℚ → List ℚ) (params0 : List ℚ) (cfg : Config) : RunState :=
  trainGoVariant cfg.learning_rate cfg.min_tol cfg.verbose
    (fun p => mse targets (forward p)) gradFn cfg.max_epochs 0 none params0 []

/-! ## Unfolding lemmas for the loop -/

lemma trainGo_zero (lr min_tol : ℚ) (verbose : ℕ) (lossFn : List ℚ → ℚ)
    (gradFn : List ℚ → List ℚ) (it : ℕ) (best : Option ℚ) (params : List ℚ)
    (logs : List LogEntry) :
    trainGo lr min_tol verbose lossFn gradFn 0 it best params logs
      = ⟨params, best, it, logs, false⟩ := rfl

lemma trainGo_succ_fire {lr min_tol : ℚ} {verbose : ℕ} {lossFn : List ℚ → ℚ}
    {gradFn : List ℚ → List ℚ} {rem it : ℕ} {best : Option ℚ}
    {params : List ℚ} {logs : List LogEntry}
    (h : updateBest best (lossFn params) < min_tol) :
    trainGo lr min_tol verbose lossFn gradFn (rem + 1) it best params logs
      = ⟨params, some (updateBest best (lossFn params)), it + 1,
          logs ++ if verbose ≠ 0 then [LogEntry.termination] else [], true⟩ := by
  simp only [trainGo]
  rw [if_pos h]

lemma trainGo_succ_cont {lr min_tol : ℚ} {verbose : ℕ} {lossFn : List ℚ → ℚ}
    {gradFn : List ℚ → List ℚ} {rem it : ℕ} {best : Option ℚ}
    {params : List ℚ} {logs : List LogEntry}
    (h : ¬ updateBest best (lossFn params) < min_tol) :
    trainGo lr min_tol verbose lossFn gradFn (rem + 1) it best params logs
      = trainGo lr min_tol verbose lossFn gradFn rem (it + 1)
          (some (updateBest best (lossFn params)))
          (updateParamsLoop lr params (gradFn params))
          (logs ++ if verbose ≠ 0 ∧ it % verbose = 0
                   then [LogEntry.progress it (lossFn params)] else []) := by
  simp only [trainGo]
  rw [if_neg h]

lemma trainGoVariant_zero (lr min_tol : ℚ) (verbose : ℕ) (lossFn : List ℚ → ℚ)
    (gradFn : List ℚ → List ℚ) (it : ℕ) (best : Option ℚ) (params : List ℚ)
    (logs : List LogEntry) :
    trainGoVariant lr min_tol verbose lossFn gradFn 0 it best params logs
      = ⟨params, best, it, logs, false⟩ := rfl

lemma trainGoVariant_succ_fire {lr min_tol : ℚ} {verbose : ℕ}
    {lossFn : List ℚ → ℚ} {gradFn : List ℚ → List ℚ} {rem it : ℕ}
    {best : Option ℚ} {params : List ℚ} {logs : List LogEntry}
    (h : lossFn params < min_tol) :
    trainGoVariant lr min_tol verbose lossFn gradFn (rem + 1) it best params logs
      = ⟨params, some (updateBest best (lossFn params)), it + 1,
          logs ++ if verbose ≠ 0 then [LogEntry.termination] else [], true⟩ := by
  simp only [trainGoVariant]
  rw [if_pos h]

lemma trainGoVariant_succ_cont {lr min_tol : ℚ} {verbose : ℕ}
    {lossFn : List ℚ → ℚ} {gradFn : List ℚ → List ℚ} {rem it : ℕ}
    {best : Option ℚ} {params : List ℚ} {logs : List LogEntry}
    (h : ¬ lossFn params < min_tol) :
    trainGoVariant lr min_tol verbose lossFn gradFn (rem + 1) it best params logs
      = trainGoVariant lr min_tol verbose lossFn gradFn rem (it + 1)
          (some (updateBest best (lossFn params)))
          (updateParamsLoop lr params (gradFn params))
          (logs ++ if verbose ≠ 0 ∧ it % verbose = 0
                   then [LogEntry.progress it (lossFn params)] else []) := by
  simp only [trainGoVariant]
  rw [if_neg h]

/-! ## Basic facts about the pieces -/

/-- A mean of squares is non-negative. -/
lemma mse_nonneg (y yhat : List ℚ) : 0 ≤ mse y yhat := by
  unfold mse
  apply div_nonneg
  · apply List.sum_nonneg
    intro x hx
    rw [List.mem_iff_getElem] at hx
    obtain ⟨n, hn, hx⟩ := hx
    rw [List.getElem_zipWith] at hx
    rw [← hx]
    positivity
  · exact_mod_cast Nat.zero_le _

/-- The updated best is always one of the previous best and the current loss. -/
lemma updateBest_cases (best : Option ℚ) (l : ℚ) :
    updateBest best l = l ∨ ∃ b, best = some b ∧ updateBest best l = b := by
  cases best with
  | none => exact Or.inl rfl
  | some b =>
    by_cases h : b = 0 ∨ b > l
    · exact Or.inl (by simp [updateBest, h])
    · exact Or.inr ⟨b, rfl, by simp [updateBest, h]⟩

/-- With a non-zero stored best, the update is exactly `min` with the current
loss, so it never increases the stored best. -/
lemma updateBest_le_of_ne_zero {b : ℚ} (hb : b ≠ 0) (l : ℚ) :
    updateBest (some b) l ≤ b := by
  have hrw : updateBest (some b) l = if b = 0 ∨ b > l then l else b := rfl
  rw [hrw]
  by_cases h : b = 0 ∨ b > l
  · rw [if_pos h]
    rcases h with h | h
    · exact absurd h hb
    · exact le_of_lt h
  · rw [if_neg h]

/-- After one round of the loop the stored best is the updated best,
whether or not the round terminated the loop. -/
lemma trainGo_one_best (lr min_tol : ℚ) (verbose : ℕ) (lossFn : List ℚ → ℚ)
    (gradFn : List ℚ → List ℚ) (it : ℕ) (best : Option ℚ) (params : List ℚ)
    (logs : List LogEntry) :
    (trainGo lr min_tol verbose lossFn gradFn 1 it best params logs).best_loss
      = some (updateBest best (lossFn params)) := by
  by_cases h : updateBest best (lossFn params) < min_tol
  · rw [trainGo_succ_fire h]
  · rw [trainGo_succ_cont h, trainGo_zero]

/-- Running the loop with one more unit of epoch budget is running it with the
smaller budget and then, unless it already terminated early, one more round
from the state it reached. -/
lemma trainGo_succ_last (lr min_tol : ℚ) (verbose : ℕ) (lossFn : List ℚ → ℚ)
    (gradFn : List ℚ → List ℚ) :
    ∀ (k it : ℕ) (best : Option ℚ) (params : List ℚ) (logs : List LogEntry),
    trainGo lr min_tol verbose lossFn gradFn (k + 1) it best params logs
      = (if (trainGo lr min_tol verbose lossFn gradFn k it best params logs).early
              = true
         then trainGo lr min_tol verbose lossFn gradFn k it best params logs
         else trainGo lr min_tol verbose lossFn gradFn 1
                (trainGo lr min_tol verbose lossFn gradFn k it best params logs).iters
                (trainGo lr min_tol verbose lossFn gradFn k it best params logs).best_loss
                (trainGo lr min_tol verbose lossFn gradFn k it best params logs).params
                (trainGo lr min_tol verbose lossFn gradFn k it best params logs).logs) := by
  intro k
  induction k with
  | zero =>
    intro it best params logs
    simp [trainGo_zero]
  | succ k ih =>
    intro it best params logs
    by_cases h : updateBest best (lossFn params) < min_tol
    · rw [trainGo_succ_fire h, trainGo_succ_fire h]
      simp
    · rw [trainGo_succ_cont h, trainGo_succ_cont h, ih]

/-- The in-place update writes, at every paired position, exactly
`parameter + (-learning_rate * gradient)`. -/
lemma updateParamsLoop_getElem (lr : ℚ) :
    ∀ (ps gs : List ℚ) (i : ℕ) (p g : ℚ),
    ps[i]? = some p → gs[i]? = some g →
    (updateParamsLoop lr ps gs)[i]? = some (p + (-lr * g)) := by
  intro ps
  induction ps with
  | nil =>
    intro gs i p g hp _
    simp at hp
  | cons a ps ih =>
    intro gs i p g hp hg
    cases gs with
    | nil => simp at hg
    | cons b gs =>
      cases i with
      | zero =>
        simp only [List.getElem?_cons_zero, Option.some_inj] at hp hg
        simp only [updateParamsLoop, List.getElem?_cons_zero, hp, hg]
      | succ i =>
        rw [List.getElem?_cons_succ] at hp hg
        simp only [updateParamsLoop, List.getElem?_cons_succ]
        exact ih gs i p g hp hg

/-- With positionally aligned gradients, the sequential in-place update loop
equals the wholesale elementwise update over the parameter snapshot. -/
lemma updateParamsLoop_eq_zipWith (lr : ℚ) :
    ∀ (ps gs : List ℚ), gs.length = ps.length →
    updateParamsLoop lr ps gs
      = List.zipWith (fun p g => p + (-lr * g)) ps gs := by
  intro ps
  induction ps with
  | nil =>
    intro gs _
    simp [updateParamsLoop]
  | cons a ps ih =>
    intro gs hlen
    cases gs with
    | nil => simp at hlen
    | cons b gs =>
      have hlen' : gs.length = ps.length := by
        simp only [List.length_cons] at hlen
        omega
      simp only [updateParamsLoop, List.zipWith_cons_cons]
      rw [ih gs hlen']

/-- The progress lines produced by `n` completed rounds of the loop starting
at iteration index `it` with parameter list `params`: one line for each round
whose index is a multiple of `verbose` (when `verbose` is truthy), carrying
that round's index and that round's loss. -/
def progressLogs (verbose : ℕ) (lr : ℚ) (lossFn : List ℚ → ℚ)
    (gradFn : List ℚ → List ℚ) (params : List ℚ) (it n : ℕ) : List LogEntry :=
  (List.range n).filterMap fun j =>
    if verbose ≠ 0 ∧ (it + j) % verbose = 0
    then some (LogEntry.progress (it + j) (lossFn (iterParams lr gradFn params j)))
    else none

lemma progressLogs_zero (verbose : ℕ) (lr : ℚ) (lossFn : List ℚ → ℚ)
    (gradFn : List ℚ → List ℚ) (params : List ℚ) (it : ℕ) :
    progressLogs verbose lr lossFn gradFn params it 0 = [] := rfl

lemma progressLogs_succ (verbose : ℕ) (lr : ℚ) (lossFn : List ℚ → ℚ)
    (gradFn : List ℚ → List ℚ) (params : List ℚ) (it n : ℕ) :
    progressLogs verbose lr lossFn gradFn params it (n + 1)
      = (if verbose ≠ 0 ∧ it % verbose = 0
         then [LogEntry.progress it (lossFn params)] else [])
        ++ progressLogs verbose lr lossFn gradFn
            (updateParamsLoop lr params (gradFn params)) (it + 1) n := by
  unfold progressLogs
  rw [List.range_succ_eq_map, List.filterMap_cons, List.filterMap_map]
  have harg : (fun j =>
      if verbose ≠ 0 ∧ (it + j) % verbose = 0
      then some (LogEntry.progress (it + j)
             (lossFn (iterParams lr gradFn params j))) else none) ∘ Nat.succ
    = fun j =>
      if verbose ≠ 0 ∧ (it + 1 + j) % verbose = 0
      then some (LogEntry.progress (it + 1 + j)
             (lossFn (iterParams lr gradFn
               (updateParamsLoop lr params (gradFn params)) j))) else none := by
    funext j
    have h1 : it + Nat.succ j = it + 1 + j := by omega
    have h2 : iterParams lr gradFn params (Nat.succ j)
        = iterParams lr gradFn (updateParamsLoop lr params (gradFn params)) j :=
      rfl
    simp only [Function.comp, h1, h2]
  rw [harg]
  by_cases hc : verbose ≠ 0 ∧ it % verbose = 0
  · rw [if_pos (by simpa using hc), if_pos hc]
    simp [iterParams]
  · rw [if_neg (by simpa using hc), if_neg hc]
    simp

/-- Complete trace of one run of the loop: there is a number `n` of fully
completed rounds (all of the budget when the loop did not exit early); the
iteration counter advances once per completed round plus once for the round
that exited early; the final parameters are `n` in-place gradient-descent
updates of the initial ones; and the output is exactly the progress lines of
the completed rounds followed by the termination notice when the loop exited
early with `verbose` truthy. -/
lemma trainGo_trace (lr min_tol : ℚ) (verbose : ℕ) (lossFn : List ℚ → ℚ)
    (gradFn : List ℚ → List ℚ) :
    ∀ (rem it : ℕ) (best : Option ℚ) (params : List ℚ) (logs : List LogEntry),
    ∃ n, n + (if (trainGo lr min_tol verbose lossFn gradFn
                   rem it best params logs).early = true then 1 else 0) ≤ rem ∧
      ((trainGo lr min_tol verbose lossFn gradFn rem it best params logs).early
          = false → n = rem) ∧
      (trainGo lr min_tol verbose lossFn gradFn rem it best params logs).iters
        = it + n
          + (if (trainGo lr min_tol verbose lossFn gradFn
                  rem it best params logs).early = true then 1 else 0) ∧
      (trainGo lr min_tol verbose lossFn gradFn rem it best params logs).params
        = iterParams lr gradFn params n ∧
      (trainGo lr min_tol verbose lossFn gradFn rem it best params logs).logs
        = logs ++ progressLogs verbose lr lossFn gradFn params it n
          ++ (if (trainGo lr min_tol verbose lossFn gradFn
                   rem it best params logs).early = true ∧ verbose ≠ 0
              then [LogEntry.termination] else []) := by
  intro rem
  induction rem with
  | zero =>
    intro it best params logs
    refine ⟨0, ?_⟩
    simp [trainGo_zero, progressLogs_zero, iterParams]
  | succ k ih =>
    intro it best params logs
    by_cases h : updateBest best (lossFn params) < min_tol
    · refine ⟨0, ?_⟩
      rw [trainGo_succ_fire h]
      simp [progressLogs_zero, iterParams]
    · rw [trainGo_succ_cont h]
      obtain ⟨n, hn, h1, h2, h3, h4⟩ :=
        ih (it + 1) (some (updateBest best (lossFn params)))
          (updateParamsLoop lr params (gradFn params))
          (logs ++ if verbose ≠ 0 ∧ it % verbose = 0
                   then [LogEntry.progress it (lossFn params)] else [])
      refine ⟨n + 1, ?_, ?_, ?_, ?_, ?_⟩
      · by_cases he : (trainGo lr min_tol verbose lossFn gradFn k (it + 1)
            (some (updateBest best (lossFn params)))
            (updateParamsLoop lr params (gradFn params))
            (logs ++ if verbose ≠ 0 ∧ it % verbose = 0
                     then [LogEntry.progress it (lossFn params)] else [])).early
          <;> simp [he] at hn ⊢ <;> omega
      · intro he
        rw [h1 he]
      · rw [h2]
        omega
      · rw [h3]
        rfl
      · rw [h4, progressLogs_succ]
        simp [List.append_assoc]

/-- Non-negativity is preserved by the `best_loss` update. -/
lemma updateBest_nonneg {best : Option ℚ} {l : ℚ}
    (hb : ∀ b, best = some b → 0 ≤ b) (hl : 0 ≤ l) :
    0 ≤ updateBest best l := by
  rcases updateBest_cases best l with h | ⟨b, hbe, h⟩
  · rw [h]; exact hl
  · rw [h]; exact hb b hbe

/-- When the tolerance is non-positive and every loss value is non-negative,
the early-termination branch is never taken. -/
lemma trainGo_no_fire_of_nonneg {lr min_tol : ℚ} {verbose : ℕ}
    {lossFn : List ℚ → ℚ} {gradFn : List ℚ → List ℚ}
    (hM : min_tol ≤ 0) (hf : ∀ p, 0 ≤ lossFn p) :
    ∀ (rem it : ℕ) (best : Option ℚ) (params : List ℚ) (logs : List LogEntry),
    (∀ b, best = some b → 0 ≤ b) →
    (trainGo lr min_tol verbose lossFn gradFn rem it best params logs).early
      = false := by
  intro rem
  induction rem with
  | zero =>
    intro it best params logs _
    rw [trainGo_zero]
  | succ k ih =>
    intro it best params logs hb
    have hnn : 0 ≤ updateBest best (lossFn params) :=
      updateBest_nonneg hb (hf params)
    have h : ¬ updateBest best (lossFn params) < min_tol := by
      intro hcon
      exact absurd (lt_of_lt_of_le hcon hM) (not_lt.mpr hnn)
    rw [trainGo_succ_cont h]
    exact ih (it + 1) _ _ _ (fun b hbe => by
      injection hbe with hbe
      rw [← hbe]
      exact hnn)

/-- Under the invariant that any stored best is at least the (positive)
tolerance, the updated best falls below the tolerance exactly when the
current loss does. -/
lemma updateBest_lt_iff {min_tol : ℚ} {best : Option ℚ} {l : ℚ}
    (hM : 0 < min_tol) (hb : ∀ b, best = some b → min_tol ≤ b) :
    (updateBest best l < min_tol ↔ l < min_tol) := by
  cases best with
  | none => exact Iff.rfl
  | some b =>
    have hMb : min_tol ≤ b := hb b rfl
    have hb0 : ¬ b = 0 := by
      intro h0
      rw [h0] at hMb
      exact absurd hM (not_lt.mpr hMb)
    have hrw : updateBest (some b) l = if b = 0 ∨ b > l then l else b := rfl
    rw [hrw]
    by_cases hbl : b = 0 ∨ b > l
    · rcases hbl with hbl | hbl
      · exact absurd hbl hb0
      · rw [if_pos (Or.inr hbl)]
    · rw [if_neg hbl]
      push_neg at hbl
      constructor
      · intro hcon
        exact absurd hcon (not_lt.mpr hMb)
      · intro hcon
        exact absurd (lt_of_le_of_lt (hbl.2) hcon) (not_lt.mpr hMb)

/-- With a positive tolerance, checking the running best against the
tolerance and checking the current loss against it produce identical runs. -/
lemma trainGo_eq_variant {lr min_tol : ℚ} {verbose : ℕ}
    {lossFn : List ℚ → ℚ} {gradFn : List ℚ → List ℚ} (hM : 0 < min_tol) :
    ∀ (rem it : ℕ) (best : Option ℚ) (params : List ℚ) (logs : List LogEntry),
    (∀ b, best = some b → min_tol ≤ b) →
    trainGo lr min_tol verbose lossFn gradFn rem it best params logs
      = trainGoVariant lr min_tol verbose lossFn gradFn rem it best params logs := by
  intro rem
  induction rem with
  | zero =>
    intro it best params logs _
    rw [trainGo_zero, trainGoVariant_zero]
  | succ k ih =>
    intro it best params logs hb
    by_cases h : lossFn params < min_tol
    · rw [trainGo_succ_fire ((updateBest_lt_iff hM hb).mpr h),
        trainGoVariant_succ_fire h]
    · have h' : ¬ updateBest best (lossFn params) < min_tol := by
        intro hcon
        exact h ((updateBest_lt_iff hM hb).mp hcon)
      rw [trainGo_succ_cont h', trainGoVariant_succ_cont h]
      exact ih (it + 1) _ _ _ (fun b hbe => by
        injection hbe with hbe
        rw [← hbe]
        exact le_of_not_lt h')

/-! ## Claim theorems -/

/-- Counterexample to claim C1: for this concrete call, the value `train`
hands back to its caller is `None` — the function body has no `return`
statement — so no final `TrainingState` (best loss, iteration count) is
returned. -/
theorem train_returns_no_state_cex :
    trainReturn (fun p => p) [0] (fun _ => [1]) [0] ⟨1, 1, 0, 0⟩ = none := rfl

/-- Claim C1 (amended): every call of `train` finishes — the loop enters at
most `max_epochs` iterations — and computes its final state internally, but
the function returns `None` rather than that state: the best loss and the
iteration count are not handed back to the caller, who observes only the
in-place parameter mutation and the console output. -/
theorem train_finishes_but_returns_none (forward : List ℚ → List ℚ)
    (targets : List ℚ) (gradFn : List ℚ → List ℚ) (params0 : List ℚ)
    (cfg : Config) :
    trainReturn forward targets gradFn params0 cfg = none ∧
    (train forward targets gradFn params0 cfg).iters ≤ cfg.max_epochs := by
  refine ⟨rfl, ?_⟩
  obtain ⟨n, hn, h1, h2, h3, h4⟩ :=
    trainGo_trace cfg.learning_rate cfg.min_tol cfg.verbose
      (fun p => mse targets (forward p)) gradFn cfg.max_epochs 0 none params0 []
  simp only [train]
  by_cases he : (trainGo cfg.learning_rate cfg.min_tol cfg.verbose
      (fun p => mse targets (forward p)) gradFn
      cfg.max_epochs 0 none params0 []).early = true <;>
    simp [he] at hn h2 <;> omega

/-- Counterexample to claim C2: the stored best is not a strict running
minimum.  In the run with learning rate `1`, tolerance `0`, silent logging,
identity model on one parameter starting at `0`, target `0`, and an external
gradient provider returning `[1]`, the loss at iteration 0 is `0`, so after
one iteration `best_loss = 0`; Python's `if not best_loss or ...` treats the
stored `0.0` as unset, so iteration 1 overwrites it with the strictly larger
current loss `1` — exhibited here by running the same deterministic loop with
budgets 1 and 2.  The first conjunct shows the update rule itself raising the
stored best from `0` to `1`. -/
theorem best_loss_not_monotone_cex :
    updateBest (some 0) 1 = 1 ∧
    (train (fun p => p) [0] (fun _ => [1]) [0] ⟨1, 1, 0, 0⟩).best_loss
      = some 0 ∧
    (train (fun p => p) [0] (fun _ => [1]) [0] ⟨1, 2, 0, 0⟩).best_loss
      = some 1 := by
  refine ⟨by norm_num [updateBest], ?_, ?_⟩
  · simp [train, trainGo, updateBest, updateParamsLoop, mse]
  · simp [train, trainGo, updateBest, updateParamsLoop, mse]
    norm_num

/-- Claim C2 (amended): `best_loss` is updated when it is unset, when it is
exactly `0` (Python truthiness of `0.0`), or when the current loss is
strictly smaller; consequently the best-loss sequence of a run is
non-increasing across every iteration whose entering best is nonzero: if the
loop reaches best `b ≠ 0` after `k` rounds, the best after one more round is
at most `b`. -/
theorem best_loss_monotone_of_ne_zero (lr min_tol : ℚ) (verbose : ℕ)
    (lossFn : List ℚ → ℚ) (gradFn : List ℚ → List ℚ) (params0 : List ℚ)
    (k : ℕ) (b b' : ℚ)
    (hk : (trainGo lr min_tol verbose lossFn gradFn k 0 none params0 []).best_loss
            = some b)
    (hb : b ≠ 0)
    (hk1 : (trainGo lr min_tol verbose lossFn gradFn (k + 1) 0 none params0 []).best_loss
            = some b') :
    b' ≤ b := by
  rw [trainGo_succ_last lr min_tol verbose lossFn gradFn k 0 none params0 []]
    at hk1
  by_cases he : (trainGo lr min_tol verbose lossFn gradFn
      k 0 none params0 []).early = true
  · rw [if_pos he, hk] at hk1
    injection hk1 with h
    exact le_of_eq h.symm
  · rw [if_neg he, trainGo_one_best, hk] at hk1
    injection hk1 with h
    rw [← h]
    exact updateBest_le_of_ne_zero hb _

/-- Witness for the amended claim C2 at a concrete input: a constant loss of
`1` with tolerance `0`; the best after one round is `1 ≠ 0` and after two
rounds still `1 ≤ 1`. -/
theorem best_loss_monotone_of_ne_zero_witness :
    (trainGo 1 0 0 (fun _ => (1 : ℚ)) (fun _ => []) 1 0 none [] []).best_loss
        = some 1 ∧
    (1 : ℚ) ≠ 0 ∧
    (trainGo 1 0 0 (fun _ => (1 : ℚ)) (fun _ => []) (1 + 1) 0 none [] []).best_loss
        = some 1 ∧
    (1 : ℚ) ≤ 1 :=
  have hk : (trainGo 1 0 0 (fun _ => (1 : ℚ)) (fun _ => []) 1 0 none [] []).best_loss
      = some 1 := by
    norm_num [trainGo, updateBest, updateParamsLoop]
  have hk1 : (trainGo 1 0 0 (fun _ => (1 : ℚ)) (fun _ => []) (1 + 1) 0 none [] []).best_loss
      = some 1 := by
    norm_num [trainGo, updateBest, updateParamsLoop]
  ⟨hk, one_ne_zero, hk1,
    best_loss_monotone_of_ne_zero 1 0 0 (fun _ => (1 : ℚ)) (fun _ => []) [] 1 1 1
      hk one_ne_zero hk1⟩

/-- Claim C3: when `min_tol ≤ 0`, the loss — a mean of squares, hence
non-negative — can never make the running best negative, so `train` never
takes the early-termination branch and runs exactly `max_epochs`
iterations. -/
theorem train_runs_all_epochs_of_min_tol_nonpos (forward : List ℚ → List ℚ)
    (targets : List ℚ) (gradFn : List ℚ → List ℚ) (params0 : List ℚ)
    (cfg : Config) (hM : cfg.min_tol ≤ 0) :
    (train forward targets gradFn params0 cfg).early = false ∧
    (train forward targets gradFn params0 cfg).iters = cfg.max_epochs := by
  have hf : ∀ p : List ℚ, 0 ≤ mse targets (forward p) := fun p =>
    mse_nonneg targets (forward p)
  have he : (trainGo cfg.learning_rate cfg.min_tol cfg.verbose
      (fun p => mse targets (forward p)) gradFn
      cfg.max_epochs 0 none params0 []).early = false :=
    trainGo_no_fire_of_nonneg hM hf cfg.max_epochs 0 none params0 []
      (fun b hb => by simp at hb)
  obtain ⟨n, hn, h1, h2, h3, h4⟩ :=
    trainGo_trace cfg.learning_rate cfg.min_tol cfg.verbose
      (fun p => mse targets (forward p)) gradFn cfg.max_epochs 0 none params0 []
  simp only [train]
  refine ⟨he, ?_⟩
  rw [h2, h1 he, he]
  simp

/-- Witness for claim C3 at a concrete input: tolerance `0`, two epochs, a
constant model output `[0]` against target `[1]` (loss `1` forever): the loop
exits normally after exactly `2` iterations. -/
theorem train_runs_all_epochs_of_min_tol_nonpos_witness :
    ((⟨1, 2, 0, 0⟩ : Config).min_tol ≤ 0) ∧
    ((train (fun p => p) [1] (fun _ => [0]) [0] ⟨1, 2, 0, 0⟩).early = false ∧
     (train (fun p => p) [1] (fun _ => [0]) [0] ⟨1, 2, 0, 0⟩).iters = 2) :=
  ⟨le_refl 0,
    train_runs_all_epochs_of_min_tol_nonpos (fun p => p) [1] (fun _ => [0]) [0]
      ⟨1, 2, 0, 0⟩ (le_refl 0)⟩

/-- Claim C4: when the loss computed at iteration 0 is already below
`min_tol`, the updated best equals that loss and the check fires at once:
`train` terminates after exactly one iteration, and its output contains at
most one progress line (in fact none, since the check precedes the logging of
the current iteration). -/
theorem train_stops_after_one_iteration (forward : List ℚ → List ℚ)
    (targets : List ℚ) (gradFn : List ℚ → List ℚ) (params0 : List ℚ)
    (cfg : Config) (hep : 1 ≤ cfg.max_epochs)
    (h0 : mse targets (forward params0) < cfg.min_tol) :
    (train forward targets gradFn params0 cfg).iters = 1 ∧
    List.countP isProgress (train forward targets gradFn params0 cfg).logs
      ≤ 1 := by
  obtain ⟨m, hm⟩ : ∃ m, cfg.max_epochs = m + 1 := ⟨cfg.max_epochs - 1, by omega⟩
  have hfire : updateBest none
      ((fun p => mse targets (forward p)) params0) < cfg.min_tol := h0
  simp only [train]
  rw [hm, @trainGo_succ_fire cfg.learning_rate cfg.min_tol cfg.verbose
    (fun p => mse targets (forward p)) gradFn m 0 none params0 [] hfire]
  refine ⟨rfl, ?_⟩
  by_cases hv : cfg.verbose ≠ 0 <;> simp [hv, isProgress]

/-- Witness for claim C4 at a concrete input: initial parameter `0` with the
identity model and target `0` gives first loss `0 < 1/1000`; the run stops
after one iteration with no progress line. -/
theorem train_stops_after_one_iteration_witness :
    (1 ≤ (⟨1/100, 5, 1/1000, 1⟩ : Config).max_epochs) ∧
    mse [0] ((fun p => p) [(0 : ℚ)]) < (⟨1/100, 5, 1/1000, 1⟩ : Config).min_tol ∧
    ((train (fun p => p) [0] (fun _ => [0]) [0] ⟨1/100, 5, 1/1000, 1⟩).iters = 1 ∧
     List.countP isProgress
       (train (fun p => p) [0] (fun _ => [0]) [0] ⟨1/100, 5, 1/1000, 1⟩).logs
       ≤ 1) :=
  have h0 : mse [0] ((fun p => p) [(0 : ℚ)]) < (⟨1/100, 5, 1/1000, 1⟩ : Config).min_tol := by
    norm_num [mse]
  ⟨by norm_num, h0,
    train_stops_after_one_iteration (fun p => p) [0] (fun _ => [0]) [0]
      ⟨1/100, 5, 1/1000, 1⟩ (by norm_num) h0⟩

/-- Claim C5: in every round, including the first, the termination test reads
the freshly updated running best — not the current loss — and is evaluated
before the round's logging: when it fires, the round appends the termination
notice exactly when `verbose` is truthy (and no progress line), leaves the
parameters untouched, advances the iteration counter once, and stops the loop
immediately. -/
theorem termination_check_uses_best_before_logging (lr min_tol : ℚ)
    (verbose : ℕ) (lossFn : List ℚ → ℚ) (gradFn : List ℚ → List ℚ)
    (rem it : ℕ) (best : Option ℚ) (params : List ℚ) (logs : List LogEntry)
    (h : updateBest best (lossFn params) < min_tol) :
    trainGo lr min_tol verbose lossFn gradFn (rem + 1) it best params logs
      = ⟨params, some (updateBest best (lossFn params)), it + 1,
          logs ++ if verbose ≠ 0 then [LogEntry.termination] else [], true⟩ :=
  trainGo_succ_fire h

/-- Witness for claim C5 at a concrete input, chosen so that the current loss
`5` is far above the tolerance `1` while the stored best `1/2` is below it:
the check fires on the stored best, stopping at once with a termination
notice and untouched parameters. -/
theorem termination_check_uses_best_before_logging_witness :
    updateBest (some (1/2)) ((fun _ => (5 : ℚ)) [2]) < 1 ∧
    trainGo 1 1 1 (fun _ => (5 : ℚ)) (fun _ => []) (3 + 1) 7 (some (1/2)) [2] []
      = ⟨[2], some (updateBest (some (1/2)) ((fun _ => (5 : ℚ)) [2])), 7 + 1,
          [] ++ if (1 : ℕ) ≠ 0 then [LogEntry.termination] else [], true⟩ :=
  have h : updateBest (some (1/2)) ((fun _ => (5 : ℚ)) [2]) < 1 := by
    norm_num [updateBest]
  ⟨h, termination_check_uses_best_before_logging 1 1 1 (fun _ => (5 : ℚ))
    (fun _ => []) 3 7 (some (1/2)) [2] [] h⟩

/-- Claim C6: the progress lines of a run appear exactly at the iterations
`0, verbose, 2*verbose, ...` strictly below the terminating iteration (the
firing iteration `iters - 1` when the loop exited early, `max_epochs = iters`
otherwise), each carrying its iteration index and that iteration's loss, and
they are followed by the termination notice exactly when the loop exited
early; `verbose = 0` suppresses all output, progress and termination notice
alike. -/
theorem train_logging_schedule (forward : List ℚ → List ℚ) (targets : List ℚ)
    (gradFn : List ℚ → List ℚ) (params0 : List ℚ) (cfg : Config) :
    (cfg.verbose = 0 → (train forward targets gradFn params0 cfg).logs = []) ∧
    (cfg.verbose ≠ 0 → (train forward targets gradFn params0 cfg).logs
       = progressLogs cfg.verbose cfg.learning_rate
           (fun p => mse targets (forward p)) gradFn params0 0
           ((train forward targets gradFn params0 cfg).iters
             - (if (train forward targets gradFn params0 cfg).early = true
                then 1 else 0))
         ++ (if (train forward targets gradFn params0 cfg).early = true
             then [LogEntry.termination] else [])) := by
  obtain ⟨n, hn, h1, h2, h3, h4⟩ :=
    trainGo_trace cfg.learning_rate cfg.min_tol cfg.verbose
      (fun p => mse targets (forward p)) gradFn cfg.max_epochs 0 none params0 []
  simp only [train]
  constructor
  · intro hv
    rw [h4]
    simp [progressLogs, hv]
  · intro hv
    have hnn : (trainGo cfg.learning_rate cfg.min_tol cfg.verbose
        (fun p => mse targets (forward p)) gradFn
        cfg.max_epochs 0 none params0 []).iters
        - (if (trainGo cfg.learning_rate cfg.min_tol cfg.verbose
              (fun p => mse targets (forward p)) gradFn
              cfg.max_epochs 0 none params0 []).early = true
           then 1 else 0) = n := by
      by_cases he : (trainGo cfg.learning_rate cfg.min_tol cfg.verbose
          (fun p => mse targets (forward p)) gradFn
          cfg.max_epochs 0 none params0 []).early = true <;>
        simp [he] at h2 ⊢ <;> omega
    rw [h4, hnn]
    simp [hv]

/-- Witness for claim C6 at a concrete input with `verbose = 1`: the identity
model on one parameter against target `0`, exact gradients, learning rate
`1/4` and tolerance `1/10`. -/
theorem train_logging_schedule_witness :
    ((⟨1/4, 10, 1/10, 1⟩ : Config).verbose ≠ 0) ∧
    (train (fun p => p) [0] (fun ps => ps.map (fun w => 2 * w)) [1]
        ⟨1/4, 10, 1/10, 1⟩).logs
      = progressLogs 1 (1/4) (fun p => mse [0] p)
          (fun ps => ps.map (fun w => 2 * w)) [1] 0
          ((train (fun p => p) [0] (fun ps => ps.map (fun w => 2 * w)) [1]
              ⟨1/4, 10, 1/10, 1⟩).iters
            - (if (train (fun p => p) [0] (fun ps => ps.map (fun w => 2 * w)) [1]
                    ⟨1/4, 10, 1/10, 1⟩).early = true then 1 else 0))
        ++ (if (train (fun p => p) [0] (fun ps => ps.map (fun w => 2 * w)) [1]
                 ⟨1/4, 10, 1/10, 1⟩).early = true
            then [LogEntry.termination] else []) :=
  ⟨by decide,
    (train_logging_schedule (fun p => p) [0] (fun ps => ps.map (fun w => 2 * w))
      [1] ⟨1/4, 10, 1/10, 1⟩).2 (by decide)⟩

/-- Claim C7: in a round that does not terminate, every positionally paired
parameter is updated in place, in order, to
`parameter - learning_rate * gradient` (vanilla gradient descent, realized as
`assign_add(-learning_rate * grads)`); numerically, a parameter `1` with
gradient `2` at learning rate `1/100` becomes `98/100 = 0.98`. -/
theorem update_is_vanilla_gradient_descent (lr min_tol : ℚ) (verbose : ℕ)
    (lossFn : List ℚ → ℚ) (gradFn : List ℚ → List ℚ) (it : ℕ)
    (best : Option ℚ) (params : List ℚ) (logs : List LogEntry)
    (h : ¬ updateBest best (lossFn params) < min_tol) :
    (∀ (i : ℕ) (p g : ℚ), params[i]? = some p → (gradFn params)[i]? = some g →
      ((trainGo lr min_tol verbose lossFn gradFn 1 it best params logs).params)[i]?
        = some (p - lr * g)) ∧
    updateParamsLoop (1/100) [1] [2] = [98/100] := by
  constructor
  · intro i p g hp hg
    rw [trainGo_succ_cont h, trainGo_zero]
    show (updateParamsLoop lr params (gradFn params))[i]? = some (p - lr * g)
    rw [updateParamsLoop_getElem lr params (gradFn params) i p g hp hg]
    congr 1
    ring
  · norm_num [updateParamsLoop]

/-- Witness for claim C7 at a concrete input: one parameter `1`, gradient
provider returning `[2]`, learning rate `1/100`, non-firing round; the
post-update parameter is `1 - (1/100)*2`. -/
theorem update_is_vanilla_gradient_descent_witness :
    (¬ updateBest none ((fun _ => (1 : ℚ)) [1]) < 0) ∧
    ((trainGo (1/100) 0 0 (fun _ => (1 : ℚ)) (fun _ => [2])
        1 0 none [1] []).params)[0]?
      = some (1 - (1/100) * 2) :=
  have h : ¬ updateBest none ((fun _ => (1 : ℚ)) [1]) < 0 := by
    norm_num [updateBest]
  ⟨h, (update_is_vanilla_gradient_descent (1/100) 0 0 (fun _ => (1 : ℚ))
      (fun _ => [2]) 0 none [1] [] h).1 0 1 2 rfl rfl⟩

/-- Claim C8: within a round that does not terminate, the entire gradient
list is obtained by a single evaluation of the gradient provider at the
pre-update parameter snapshot, and only afterwards are the parameters
replaced wholesale by the elementwise descent step over that same snapshot;
the loop then continues from the result. -/
theorem gradients_computed_before_any_update (lr min_tol : ℚ) (verbose : ℕ)
    (lossFn : List ℚ → ℚ) (gradFn : List ℚ → List ℚ) (rem it : ℕ)
    (best : Option ℚ) (params : List ℚ) (logs : List LogEntry)
    (h : ¬ updateBest best (lossFn params) < min_tol)
    (hlen : (gradFn params).length = params.length) :
    trainGo lr min_tol verbose lossFn gradFn (rem + 1) it best params logs
      = trainGo lr min_tol verbose lossFn gradFn rem (it + 1)
          (some (updateBest best (lossFn params)))
          (List.zipWith (fun p g => p + (-lr * g)) params (gradFn params))
          (logs ++ if verbose ≠ 0 ∧ it % verbose = 0
                   then [LogEntry.progress it (lossFn params)] else []) := by
  rw [trainGo_succ_cont h,
    updateParamsLoop_eq_zipWith lr params (gradFn params) hlen]

/-- Witness for claim C8 at a concrete input: identity gradient provider on
one parameter `3`, constant loss `1`, tolerance `0`. -/
theorem gradients_computed_before_any_update_witness :
    (¬ updateBest none ((fun _ => (1 : ℚ)) [3]) < 0) ∧
    ((fun ps => ps) [(3 : ℚ)]).length = [(3 : ℚ)].length ∧
    trainGo 1 0 0 (fun _ => (1 : ℚ)) (fun ps => ps) (0 + 1) 0 none [3] []
      = trainGo 1 0 0 (fun _ => (1 : ℚ)) (fun ps => ps) 0 (0 + 1)
          (some (updateBest none ((fun _ => (1 : ℚ)) [3])))
          (List.zipWith (fun p g => p + (-1 * g)) [3] ((fun ps => ps) [3]))
          ([] ++ if (0 : ℕ) ≠ 0 ∧ 0 % 0 = 0
                 then [LogEntry.progress 0 ((fun _ => (1 : ℚ)) [3])] else []) :=
  have h : ¬ updateBest none ((fun _ => (1 : ℚ)) [3]) < 0 := by
    norm_num [updateBest]
  ⟨h, rfl,
    gradients_computed_before_any_update 1 0 0 (fun _ => (1 : ℚ))
      (fun ps => ps) 0 0 none [3] [] h rfl⟩

/-- Claim C9: in the round where the early-termination check fires, no
gradient is computed and no parameter is mutated — the outcome does not
depend on the gradient provider and the parameters are returned as they were
at the start of the round; in particular, when the first loss is already
below a positive tolerance, `train` returns with every parameter equal to
its initial value. -/
theorem early_termination_frame :
    (∀ (lr min_tol : ℚ) (verbose : ℕ) (lossFn : List ℚ → ℚ)
       (gradFn gradFn' : List ℚ → List ℚ) (rem it : ℕ) (best : Option ℚ)
       (params : List ℚ) (logs : List LogEntry),
       updateBest best (lossFn params) < min_tol →
       (trainGo lr min_tol verbose lossFn gradFn
           (rem + 1) it best params logs).params = params ∧
       trainGo lr min_tol verbose lossFn gradFn (rem + 1) it best params logs
         = trainGo lr min_tol verbose lossFn gradFn'
             (rem + 1) it best params logs) ∧
    (∀ (forward : List ℚ → List ℚ) (targets : List ℚ)
       (gradFn : List ℚ → List ℚ) (params0 : List ℚ) (cfg : Config),
       0 < cfg.min_tol → 1 ≤ cfg.max_epochs →
       mse targets (forward params0) < cfg.min_tol →
       (train forward targets gradFn params0 cfg).params = params0) := by
  constructor
  · intro lr min_tol verbose lossFn gradFn gradFn' rem it best params logs h
    rw [trainGo_succ_fire h, trainGo_succ_fire h]
    exact ⟨rfl, rfl⟩
  · intro forward targets gradFn params0 cfg hM hep h0
    obtain ⟨m, hm⟩ : ∃ m, cfg.max_epochs = m + 1 :=
      ⟨cfg.max_epochs - 1, by omega⟩
    have hfire : updateBest none
        ((fun p => mse targets (forward p)) params0) < cfg.min_tol := h0
    simp only [train]
    rw [hm, @trainGo_succ_fire cfg.learning_rate cfg.min_tol cfg.verbose
      (fun p => mse targets (forward p)) gradFn m 0 none params0 [] hfire]

/-- Witness for claim C9 at concrete inputs: a firing round with two
different gradient providers produces identical results and untouched
parameters, and a run whose first loss `0` is below the tolerance `1`
returns the initial parameter list unchanged. -/
theorem early_termination_frame_witness :
    (updateBest none ((fun _ => (0 : ℚ)) [4]) < 1) ∧
    ((trainGo 1 1 0 (fun _ => (0 : ℚ)) (fun _ => [5])
        (0 + 1) 0 none [4] []).params = [4] ∧
      trainGo 1 1 0 (fun _ => (0 : ℚ)) (fun _ => [5]) (0 + 1) 0 none [4] []
        = trainGo 1 1 0 (fun _ => (0 : ℚ)) (fun _ => [7])
            (0 + 1) 0 none [4] []) ∧
    mse [0] ((fun p => p) [(0 : ℚ)]) < (⟨1, 3, 1, 0⟩ : Config).min_tol ∧
    (train (fun p => p) [0] (fun _ => [9]) [0] ⟨1, 3, 1, 0⟩).params = [0] :=
  have h1 : updateBest none ((fun _ => (0 : ℚ)) [4]) < 1 := by
    norm_num [updateBest]
  have h2 : mse [0] ((fun p => p) [(0 : ℚ)]) < (⟨1, 3, 1, 0⟩ : Config).min_tol := by
    norm_num [mse]
  ⟨h1,
    early_termination_frame.1 1 1 0 (fun _ => (0 : ℚ)) (fun _ => [5])
      (fun _ => [7]) 0 0 none [4] [] h1,
    h2,
    early_termination_frame.2 (fun p => p) [0] (fun _ => [9]) [0]
      ⟨1, 3, 1, 0⟩ (by norm_num) (by norm_num) h2⟩

/-- Claim C10: with a positive tolerance, `train` is observationally
equivalent to the variant whose termination check reads the
current-iteration loss instead of the running best: the two runs coincide in
full — same final parameters, same best loss, same iteration count, same log
lines, same exit mode — because before any firing the stored best never sits
below the tolerance, so the updated best falls below it exactly when the
current loss does. -/
theorem train_check_equiv_current_loss (forward : List ℚ → List ℚ)
    (targets : List ℚ) (gradFn : List ℚ → List ℚ) (params0 : List ℚ)
    (cfg : Config) (hM : 0 < cfg.min_tol) :
    train forward targets gradFn params0 cfg
      = trainVariant forward targets gradFn params0 cfg := by
  simp only [train, trainVariant]
  exact trainGo_eq_variant hM cfg.max_epochs 0 none params0 []
    (fun b hb => by simp at hb)

/-- Witness for claim C10 at a concrete input: an early-terminating run
(identity model, target `0`, exact gradients, learning rate `1/4`, tolerance
`1/10`) where both checks produce the same run. -/
theorem train_check_equiv_current_loss_witness :
    (0 < (⟨1/4, 10, 1/10, 1⟩ : Config).min_tol) ∧
    train (fun p => p) [0] (fun ps => ps.map (fun w => 2 * w)) [1]
        ⟨1/4, 10, 1/10, 1⟩
      = trainVariant (fun p => p) [0] (fun ps => ps.map (fun w => 2 * w)) [1]
          ⟨1/4, 10, 1/10, 1⟩ :=
  ⟨by norm_num,
    train_check_equiv_current_loss (fun p => p) [0]
      (fun ps => ps.map (fun w => 2 * w)) [1] ⟨1/4, 10, 1/10, 1⟩ (by norm_num)⟩

end TrainLoop
